import Mathlib

/-!
Verification of the Robonomics liability pallet
(`robonomics/frame/liability/src/lib.rs`).

The pallet stores bilateral liability agreements in four storage regions
(`LatestIndex`, `LiabilityOf`, `ReportOf`, `IsFinalized`) and exposes two
dispatchable entry points, `create` and `finalize`.  The pallet code is
generic over a `Liability` type implementing the `Agreement` and
`Processing` traits (construction, proof verification, economic hooks,
SCALE encode/decode); the embedding mirrors this genericity by
parameterising the entry points over a record of those operations.
-/

/-- Events declared by `decl_event!` in the pallet:
`NewLiability(u64)` and `NewReport(u64)`. -/
inductive Event where
  | NewLiability (i : Nat)
  | NewReport (i : Nat)
deriving DecidableEq

/-- The dispatch origin, as in Substrate `system::RawOrigin`.
`ensure_none` accepts only the `None` origin. -/
inductive RawOrigin (A : Type) where
  | Root
  | Signed (who : A)
  | None
deriving DecidableEq

/-- `system::ensure_none`: the host's origin-authorization check, which
accepts only the unauthenticated (no-signer) origin. -/
def ensure_none {A : Type} : RawOrigin A → Except String Unit
  | RawOrigin.None => .ok ()
  | _ => .error "bad origin: expected unsigned dispatch"

/-- `ProofTarget` from the liability traits: which claim a submitted proof
is checked against (`Promisee`, `Promisor`, or `Report(report)`). -/
inductive ProofTarget (R : Type) where
  | Promisee
  | Promisor
  | Report (report : R)

/-- The operations the pallet requires of its configured
`T::Liability: Agreement<Technics, Economics> + Processing` type, together
with the codec used by `using_encoded` / `decode`.  The pallet code in
`lib.rs` uses these operations abstractly; theorems about the entry-point
logic quantify over this record. -/
structure LiabilityImpl (T E A P R G : Type) where
  new : T → E → A → A → G
  verify : G → ProofTarget R → P → Except String Unit
  on_start : G → Except String Unit
  on_finish : G → Bool → Except String Unit
  encode : G → List Nat
  decode : List Nat → Except String G
  encodeReport : R → List Nat

/-- The pallet's persistent state: the four storage regions declared by
`decl_storage!`, plus the event deposit sink provided by the host.  The
storage maps return their type's default value (`Vec::new()`, `false`)
for absent keys, so they are modelled as total functions. -/
structure LiabilityState where
  latestIndex : Nat
  liabilityOf : Nat → List Nat
  reportOf : Nat → List Nat
  isFinalized : Nat → Bool
  events : List Event

/-- Genesis state: counter at 0, all maps empty/default, no events. -/
def initState : LiabilityState :=
  { latestIndex := 0
    liabilityOf := fun _ => []
    reportOf := fun _ => []
    isFinalized := fun _ => false
    events := [] }

/-- Storage-map insert: `<Map>::insert(k, v)`. -/
def storeInsert (m : Nat → List Nat) (k : Nat) (v : List Nat) : Nat → List Nat :=
  fun i => if i = k then v else m i

/-- The `create` dispatchable (`lib.rs` lines 95-124): check origin,
construct the liability, verify both parties' proofs, run the economic
start hook, then store the encoded liability at `LatestIndex + 1` and
bump `LatestIndex`.  Returns the dispatch result and the state at exit;
all storage writes happen after the last fallible step, so an error
leaves the entry state untouched. -/
def create {T E A P R G : Type} (impl : LiabilityImpl T E A P R G)
    (origin : RawOrigin A) (technics : T) (economics : E)
    (promisee : A) (promisee_proof : P) (promisor : A) (promisor_proof : P)
    (s : LiabilityState) : Except String Unit × LiabilityState :=
  match ensure_none origin with
  | .error e => (.error e, s)
  | .ok _ =>
    match impl.verify (impl.new technics economics promisee promisor) ProofTarget.Promisee promisee_proof with
    | .error e => (.error e, s)
    | .ok _ =>
      match impl.verify (impl.new technics economics promisee promisor) ProofTarget.Promisor promisor_proof with
      | .error e => (.error e, s)
      | .ok _ =>
        match impl.on_start (impl.new technics economics promisee promisor) with
        | .error e => (.error e, s)
        | .ok _ =>
          (.ok (),
            { s with
              liabilityOf := storeInsert s.liabilityOf (s.latestIndex + 1)
                (impl.encode (impl.new technics economics promisee promisor))
              latestIndex := s.latestIndex + 1 })

/-- The `finalize` dispatchable (`lib.rs` lines 127-153): check origin,
reject if `IsFinalized[index]`, decode the stored liability (mapping any
decode failure to the fixed message), verify the report proof, run the
economic finish hook with `true`, then store the encoded report at
`index`.  Note that `IsFinalized` is never written. -/
def finalize {T E A P R G : Type} (impl : LiabilityImpl T E A P R G)
    (origin : RawOrigin A) (index : Nat) (report : R) (proof : P)
    (s : LiabilityState) : Except String Unit × LiabilityState :=
  match ensure_none origin with
  | .error e => (.error e, s)
  | .ok _ =>
    if s.isFinalized index then (.error "already finalized", s)
    else
      match impl.decode (s.liabilityOf index) with
      | .error _ => (.error "unable decode liability params", s)
      | .ok liability =>
        match impl.verify liability (ProofTarget.Report report) proof with
        | .error e => (.error e, s)
        | .ok _ =>
          match impl.on_finish liability true with
          | .error e => (.error e, s)
          | .ok _ =>
            (.ok (), { s with reportOf := storeInsert s.reportOf index (impl.encodeReport report) })

/-- Modelled from the spec: the repository's `signed.rs`, `technics.rs`
and `economics.rs` modules are not under `src/`.  Per spec section 3, an
Agreement is the record
`{ technical, economic, promisee, promisor }`, with the technical
parameter an opaque content reference (bytes), the economic terms an
opaque policy value, and the parties account-like identifiers. -/
structure SignedAgreement where
  technical : List Nat
  economic : Nat
  promisee : Nat
  promisor : Nat
deriving DecidableEq

/-- Modelled from the spec: the canonical serialization of an Agreement
used for ledger storage (spec section 4.3) — the length-prefixed
technical bytes followed by the economic terms and the two parties. -/
def encodeAgreement (a : SignedAgreement) : List Nat :=
  a.technical.length :: (a.technical ++ [a.economic, a.promisee, a.promisor])

/-- Modelled from the spec: decoding of stored Agreement bytes
(spec sections 4.3 and 4.4 step 3); decoding fails if the bytes do not
match the expected shape, and in particular the empty byte sequence —
returned by the storage map for an absent index — must not decode as a
valid Agreement. -/
def decodeAgreement : List Nat → Except String SignedAgreement
  | [] => .error "empty byte sequence"
  | n :: rest =>
    match rest.drop n with
    | [economic, promisee, promisor] =>
      .ok { technical := rest.take n
            economic := economic
            promisee := promisee
            promisor := promisor }
    | _ => .error "byte sequence of unexpected shape"

/-- Modelled from the spec: the configured liability implementation
(spec section 4.3): `new` is pure record construction, encode/decode are
the canonical Agreement serialization, reports are stored
length-prefixed; proof verification and the two economic hooks are
injected capabilities. -/
def signedImpl
    (verify : SignedAgreement → ProofTarget (List Nat) → List Nat → Except String Unit)
    (on_start : SignedAgreement → Except String Unit)
    (on_finish : SignedAgreement → Bool → Except String Unit) :
    LiabilityImpl (List Nat) Nat Nat (List Nat) (List Nat) SignedAgreement where
  new technical economic promisee promisor :=
    { technical := technical, economic := economic
      promisee := promisee, promisor := promisor }
  verify := verify
  on_start := on_start
  on_finish := on_finish
  encode := encodeAgreement
  decode := decodeAgreement
  encodeReport r := r.length :: r

/-- A proof-verification capability that accepts every proof, and
economic hooks that always succeed; used to instantiate theorems at
concrete inputs. -/
def okImpl : LiabilityImpl (List Nat) Nat Nat (List Nat) (List Nat) SignedAgreement :=
  signedImpl (fun _ _ _ => .ok ()) (fun _ => .ok ()) (fun _ _ => .ok ())

/-- A fully trivial implementation over unit types whose decode always
succeeds; used to instantiate reachability theorems. -/
def allOkImpl : LiabilityImpl Unit Unit Unit Unit Unit Unit where
  new _ _ _ _ := ()
  verify _ _ _ := .ok ()
  on_start _ := .ok ()
  on_finish _ _ := .ok ()
  encode _ := []
  decode _ := .ok ()
  encodeReport _ := []

/-- States reachable from genesis by any sequence of `create` and
`finalize` calls (with arbitrary origins and arguments); failed calls
return the entry state, so they are covered by the same step
constructors. -/
inductive Reachable {T E A P R G : Type} (impl : LiabilityImpl T E A P R G) :
    LiabilityState → Prop where
  | init : Reachable impl initState
  | step_create (s : LiabilityState) (o : RawOrigin A) (t : T) (e : E)
      (pe : A) (ppf : P) (pr : A) (rpf : P) :
      Reachable impl s → Reachable impl (create impl o t e pe ppf pr rpf s).2
  | step_finalize (s : LiabilityState) (o : RawOrigin A) (i : Nat) (r : R) (pf : P) :
      Reachable impl s → Reachable impl (finalize impl o i r pf s).2

/-- An implementation whose promisee-proof verification always fails. -/
def failPromiseeImpl : LiabilityImpl (List Nat) Nat Nat (List Nat) (List Nat) SignedAgreement :=
  signedImpl
    (fun _ target _ =>
      match target with
      | ProofTarget.Promisee => .error "bad promisee proof"
      | _ => .ok ())
    (fun _ => .ok ()) (fun _ _ => .ok ())

/-- An implementation whose report-proof verification always fails. -/
def failReportImpl : LiabilityImpl (List Nat) Nat Nat (List Nat) (List Nat) SignedAgreement :=
  signedImpl
    (fun _ target _ =>
      match target with
      | ProofTarget.Report _ => .error "bad report proof"
      | _ => .ok ())
    (fun _ => .ok ()) (fun _ _ => .ok ())

/-- An implementation whose economic hooks always decline. -/
def failHooksImpl : LiabilityImpl (List Nat) Nat Nat (List Nat) (List Nat) SignedAgreement :=
  signedImpl (fun _ _ _ => .ok ())
    (fun _ => .error "start declined") (fun _ _ => .error "finish declined")

/-- The state after one successful `create` from genesis. -/
def exampleCreated : LiabilityState :=
  (create okImpl RawOrigin.None [9] 3 5 [] 6 [] initState).2

/-- The state after one successful `create` and one successful `finalize`
from genesis. -/
def exampleFinalizedOnce : LiabilityState :=
  (finalize okImpl RawOrigin.None 1 [1] [] exampleCreated).2

/-- A state whose finalization flag is set at index 1 (not reachable:
no entry point writes the flag). -/
def finalizedFlagState : LiabilityState :=
  { initState with isFinalized := fun i => i == 1 }

/-- Round-trip of the canonical Agreement serialization. -/
theorem decodeAgreement_encodeAgreement (a : SignedAgreement) :
    decodeAgreement (encodeAgreement a) = .ok a := by
  cases a with
  | mk technical economic promisee promisor =>
    simp [encodeAgreement, decodeAgreement, List.drop_left, List.take_left]

/-! ## Frame lemmas for the two entry points -/

theorem create_isFinalized_eq {T E A P R G : Type} (impl : LiabilityImpl T E A P R G)
    (o : RawOrigin A) (t : T) (e : E) (pe : A) (ppf : P) (pr : A) (rpf : P)
    (s : LiabilityState) :
    (create impl o t e pe ppf pr rpf s).2.isFinalized = s.isFinalized := by
  unfold create
  repeat first | rfl | split

theorem create_reportOf_eq {T E A P R G : Type} (impl : LiabilityImpl T E A P R G)
    (o : RawOrigin A) (t : T) (e : E) (pe : A) (ppf : P) (pr : A) (rpf : P)
    (s : LiabilityState) :
    (create impl o t e pe ppf pr rpf s).2.reportOf = s.reportOf := by
  unfold create
  repeat first | rfl | split

theorem create_events_eq {T E A P R G : Type} (impl : LiabilityImpl T E A P R G)
    (o : RawOrigin A) (t : T) (e : E) (pe : A) (ppf : P) (pr : A) (rpf : P)
    (s : LiabilityState) :
    (create impl o t e pe ppf pr rpf s).2.events = s.events := by
  unfold create
  repeat first | rfl | split

theorem create_liabilityOf_frame {T E A P R G : Type} (impl : LiabilityImpl T E A P R G)
    (o : RawOrigin A) (t : T) (e : E) (pe : A) (ppf : P) (pr : A) (rpf : P)
    (s : LiabilityState) (j : Nat) (hj : j ≠ s.latestIndex + 1) :
    (create impl o t e pe ppf pr rpf s).2.liabilityOf j = s.liabilityOf j := by
  unfold create
  repeat first | rfl | split
  simp [storeInsert, hj]

theorem create_latestIndex_cases {T E A P R G : Type} (impl : LiabilityImpl T E A P R G)
    (o : RawOrigin A) (t : T) (e : E) (pe : A) (ppf : P) (pr : A) (rpf : P)
    (s : LiabilityState) :
    (create impl o t e pe ppf pr rpf s).2.latestIndex = s.latestIndex ∨
    (create impl o t e pe ppf pr rpf s).2.latestIndex = s.latestIndex + 1 := by
  unfold create
  repeat first | exact Or.inl rfl | exact Or.inr rfl | split

theorem finalize_latestIndex_eq {T E A P R G : Type} (impl : LiabilityImpl T E A P R G)
    (o : RawOrigin A) (i : Nat) (r : R) (pf : P) (s : LiabilityState) :
    (finalize impl o i r pf s).2.latestIndex = s.latestIndex := by
  unfold finalize
  repeat first | rfl | split

theorem finalize_liabilityOf_eq {T E A P R G : Type} (impl : LiabilityImpl T E A P R G)
    (o : RawOrigin A) (i : Nat) (r : R) (pf : P) (s : LiabilityState) :
    (finalize impl o i r pf s).2.liabilityOf = s.liabilityOf := by
  unfold finalize
  repeat first | rfl | split

theorem finalize_isFinalized_eq {T E A P R G : Type} (impl : LiabilityImpl T E A P R G)
    (o : RawOrigin A) (i : Nat) (r : R) (pf : P) (s : LiabilityState) :
    (finalize impl o i r pf s).2.isFinalized = s.isFinalized := by
  unfold finalize
  repeat first | rfl | split

theorem finalize_events_eq {T E A P R G : Type} (impl : LiabilityImpl T E A P R G)
    (o : RawOrigin A) (i : Nat) (r : R) (pf : P) (s : LiabilityState) :
    (finalize impl o i r pf s).2.events = s.events := by
  unfold finalize
  repeat first | rfl | split

theorem finalize_reportOf_frame {T E A P R G : Type} (impl : LiabilityImpl T E A P R G)
    (o : RawOrigin A) (i : Nat) (r : R) (pf : P) (s : LiabilityState)
    (j : Nat) (hj : j ≠ i) :
    (finalize impl o i r pf s).2.reportOf j = s.reportOf j := by
  unfold finalize
  repeat first | rfl | split
  simp [storeInsert, hj]

/-- A `create` call either leaves the state unchanged (some step failed)
or performs exactly the two success-path writes. -/
theorem create_result_cases {T E A P R G : Type} (impl : LiabilityImpl T E A P R G)
    (o : RawOrigin A) (t : T) (e : E) (pe : A) (ppf : P) (pr : A) (rpf : P)
    (s : LiabilityState) :
    (create impl o t e pe ppf pr rpf s).2 = s ∨
    (create impl o t e pe ppf pr rpf s).2 =
      { s with
        liabilityOf := storeInsert s.liabilityOf (s.latestIndex + 1)
          (impl.encode (impl.new t e pe pr))
        latestIndex := s.latestIndex + 1 } := by
  unfold create
  repeat first | exact Or.inl rfl | exact Or.inr rfl | split

/-- No entry point ever writes the finalization flag, so it keeps its
genesis value `false` everywhere, in every reachable state. -/
theorem reachable_isFinalized_false {T E A P R G : Type}
    (impl : LiabilityImpl T E A P R G) (s : LiabilityState)
    (h : Reachable impl s) : ∀ i, s.isFinalized i = false := by
  induction h with
  | init => intro i; rfl
  | step_create s o t e pe ppf pr rpf h ih =>
    intro i
    rw [create_isFinalized_eq]
    exact ih i
  | step_finalize s o j r pf h ih =>
    intro i
    rw [finalize_isFinalized_eq]
    exact ih i

/-- In every reachable state, indices above `LatestIndex` hold no
agreement bytes. -/
theorem reachable_liabilityOf_empty_above {T E A P R G : Type}
    (impl : LiabilityImpl T E A P R G) (s : LiabilityState)
    (h : Reachable impl s) : ∀ i, s.latestIndex < i → s.liabilityOf i = [] := by
  induction h with
  | init => intro i _; rfl
  | step_create s o t e pe ppf pr rpf h ih =>
    intro i hi
    rcases create_result_cases impl o t e pe ppf pr rpf s with hc | hc
    · rw [hc] at hi ⊢
      exact ih i hi
    · rw [hc] at hi ⊢
      have hi' : s.latestIndex + 1 < i := hi
      have hne : i ≠ s.latestIndex + 1 := by omega
      show storeInsert s.liabilityOf (s.latestIndex + 1) (impl.encode (impl.new t e pe pr)) i = []
      simp only [storeInsert, if_neg hne]
      exact ih i (by omega)
  | step_finalize s o j r pf h ih =>
    intro i hi
    rw [finalize_liabilityOf_eq]
    rw [finalize_latestIndex_eq] at hi
    exact ih i hi

/-- On success, `create` sets `LatestIndex` to its old value plus one and
stores the encoded constructed liability at that index. -/
theorem create_success_spec {T E A P R G : Type} (impl : LiabilityImpl T E A P R G)
    (o : RawOrigin A) (t : T) (e : E) (pe : A) (ppf : P) (pr : A) (rpf : P)
    (s s' : LiabilityState)
    (h : create impl o t e pe ppf pr rpf s = (.ok (), s')) :
    s'.latestIndex = s.latestIndex + 1 ∧
    s'.liabilityOf s'.latestIndex = impl.encode (impl.new t e pe pr) := by
  unfold create at h
  cases h0 : ensure_none o <;> simp only [h0] at h
  case error e0 => simp at h
  case ok u =>
    cases h1 : impl.verify (impl.new t e pe pr) ProofTarget.Promisee ppf <;>
      simp only [h1] at h
    case error e1 => simp at h
    case ok u1 =>
      cases h2 : impl.verify (impl.new t e pe pr) ProofTarget.Promisor rpf <;>
        simp only [h2] at h
      case error e2 => simp at h
      case ok u2 =>
        cases h3 : impl.on_start (impl.new t e pe pr) <;> simp only [h3] at h
        case error e3 => simp at h
        case ok u3 =>
          injection h with h_fst h_snd
          subst h_snd
          refine ⟨rfl, ?_⟩
          show storeInsert s.liabilityOf (s.latestIndex + 1)
            (impl.encode (impl.new t e pe pr)) (s.latestIndex + 1) =
            impl.encode (impl.new t e pe pr)
          simp [storeInsert]

/-! ## Claim theorems -/

/-- C9: for every Agreement built from any combination of technical
parameter, economic parameter, and party identities, encoding it with the
canonical serialization and then decoding the resulting bytes yields an
Agreement equal in all fields to the original. -/
theorem agreement_encode_decode_roundtrip (a : SignedAgreement) :
    decodeAgreement (encodeAgreement a) = .ok a :=
  decodeAgreement_encodeAgreement a

/-- C1: every `create` call that returns success increases `LatestIndex`
by exactly 1 over its pre-call value, and `LiabilityOf` at the new index
holds an encoding that decodes to an Agreement whose technical, economic,
promisee and promisor fields equal the submitted arguments. -/
theorem create_success_increments_and_stores
    (verify : SignedAgreement → ProofTarget (List Nat) → List Nat → Except String Unit)
    (on_start : SignedAgreement → Except String Unit)
    (on_finish : SignedAgreement → Bool → Except String Unit)
    (o : RawOrigin Nat) (t : List Nat) (e : Nat) (pe : Nat) (ppf : List Nat)
    (pr : Nat) (rpf : List Nat) (s s' : LiabilityState)
    (h : create (signedImpl verify on_start on_finish) o t e pe ppf pr rpf s = (.ok (), s')) :
    s'.latestIndex = s.latestIndex + 1 ∧
    decodeAgreement (s'.liabilityOf s'.latestIndex) =
      .ok { technical := t, economic := e, promisee := pe, promisor := pr } := by
  obtain ⟨h1, h2⟩ :=
    create_success_spec (signedImpl verify on_start on_finish) o t e pe ppf pr rpf s s' h
  refine ⟨h1, ?_⟩
  rw [h2]
  exact decodeAgreement_encodeAgreement
    { technical := t, economic := e, promisee := pe, promisor := pr }

theorem create_success_increments_and_stores_witness :
    exampleCreated.latestIndex = initState.latestIndex + 1 ∧
    decodeAgreement (exampleCreated.liabilityOf exampleCreated.latestIndex) =
      .ok { technical := [9], economic := 3, promisee := 5, promisor := 6 } :=
  create_success_increments_and_stores
    (fun _ _ _ => .ok ()) (fun _ => .ok ()) (fun _ _ => .ok ())
    RawOrigin.None [9] 3 5 [] 6 [] initState exampleCreated rfl

/-- C2: every `create` call in which verification of the promisee proof
or of the promisor proof fails returns the verification error, and the
state — all four storage regions — is exactly as it was before the
call. -/
theorem create_verification_failure_no_state_change
    {T E A P R G : Type} (impl : LiabilityImpl T E A P R G)
    (t : T) (e : E) (pe : A) (ppf : P) (pr : A) (rpf : P)
    (s : LiabilityState) (msg : String)
    (h : impl.verify (impl.new t e pe pr) ProofTarget.Promisee ppf = .error msg ∨
        (impl.verify (impl.new t e pe pr) ProofTarget.Promisee ppf = .ok () ∧
         impl.verify (impl.new t e pe pr) ProofTarget.Promisor rpf = .error msg)) :
    create impl RawOrigin.None t e pe ppf pr rpf s = (.error msg, s) := by
  unfold create
  rcases h with h1 | ⟨h1, h2⟩
  · simp [ensure_none, h1]
  · simp [ensure_none, h1, h2]

theorem create_verification_failure_no_state_change_witness :
    create failPromiseeImpl RawOrigin.None [9] 3 5 [] 6 [] initState =
      (.error "bad promisee proof", initState) :=
  create_verification_failure_no_state_change failPromiseeImpl [9] 3 5 [] 6 [] initState
    "bad promisee proof" (Or.inl rfl)

/-- On a state whose flag is unset at `i` and whose stored bytes decode,
`finalize` succeeds when the report proof and the finish hook accept. -/
theorem finalize_success_of {T E A P R G : Type} (impl : LiabilityImpl T E A P R G)
    (i : Nat) (r : R) (pf : P) (s : LiabilityState) (liab : G)
    (hflag : s.isFinalized i = false)
    (hdec : impl.decode (s.liabilityOf i) = .ok liab)
    (hver : impl.verify liab (ProofTarget.Report r) pf = .ok ())
    (hfin : impl.on_finish liab true = .ok ()) :
    (finalize impl RawOrigin.None i r pf s).1 = .ok () := by
  unfold finalize
  simp [ensure_none, hflag, hdec, hver, hfin]

/-- C3 (defect): the pallet declares the `NewLiability` and `NewReport`
events and wires up `deposit_event`, but neither entry point ever
deposits an event — the event sink is unchanged by every `create` and
`finalize` call, and in particular a successful `create` followed by a
successful `finalize` from genesis emits nothing. -/
theorem no_events_ever_emitted :
    (∀ (T E A P R G : Type) (impl : LiabilityImpl T E A P R G)
        (o : RawOrigin A) (t : T) (e : E) (pe : A) (ppf : P) (pr : A) (rpf : P)
        (s : LiabilityState),
        (create impl o t e pe ppf pr rpf s).2.events = s.events) ∧
    (∀ (T E A P R G : Type) (impl : LiabilityImpl T E A P R G)
        (o : RawOrigin A) (i : Nat) (r : R) (pf : P) (s : LiabilityState),
        (finalize impl o i r pf s).2.events = s.events) ∧
    (create okImpl RawOrigin.None [9] 3 5 [] 6 [] initState).1 = .ok () ∧
    exampleCreated.events = [] ∧
    (finalize okImpl RawOrigin.None 1 [1] [] exampleCreated).1 = .ok () ∧
    exampleFinalizedOnce.events = [] :=
  ⟨fun _ _ _ _ _ _ impl o t e pe ppf pr rpf s => create_events_eq impl o t e pe ppf pr rpf s,
   fun _ _ _ _ _ _ impl o i r pf s => finalize_events_eq impl o i r pf s,
   rfl, rfl, rfl, rfl⟩

/-- C4: in every state reachable from genesis by any sequence of `create`
and `finalize` calls, the finalization flag is false at every index — no
entry point ever writes it — and therefore every `finalize` on an index
whose decode, report-proof check and economic finish hook succeed is
accepted, and is accepted again when repeated on the resulting state. -/
theorem isFinalized_never_set_and_finalize_reenterable
    {T E A P R G : Type} (impl : LiabilityImpl T E A P R G) (s : LiabilityState)
    (h : Reachable impl s) :
    (∀ i, s.isFinalized i = false) ∧
    (∀ (i : Nat) (r : R) (pf : P) (liab : G),
        impl.decode (s.liabilityOf i) = .ok liab →
        impl.verify liab (ProofTarget.Report r) pf = .ok () →
        impl.on_finish liab true = .ok () →
        (finalize impl RawOrigin.None i r pf s).1 = .ok () ∧
        (finalize impl RawOrigin.None i r pf
          ((finalize impl RawOrigin.None i r pf s).2)).1 = .ok ()) := by
  have hflag := reachable_isFinalized_false impl s h
  refine ⟨hflag, ?_⟩
  intro i r pf liab hdec hver hfin
  refine ⟨finalize_success_of impl i r pf s liab (hflag i) hdec hver hfin, ?_⟩
  refine finalize_success_of impl i r pf _ liab ?_ ?_ hver hfin
  · rw [finalize_isFinalized_eq]
    exact hflag i
  · rw [finalize_liabilityOf_eq]
    exact hdec

theorem isFinalized_never_set_witness :
    initState.isFinalized 0 = false ∧
    (finalize allOkImpl RawOrigin.None 0 () () initState).1 = .ok () ∧
    (finalize allOkImpl RawOrigin.None 0 () ()
      ((finalize allOkImpl RawOrigin.None 0 () () initState).2)).1 = .ok () :=
  ⟨(isFinalized_never_set_and_finalize_reenterable allOkImpl initState Reachable.init).1 0,
   ((isFinalized_never_set_and_finalize_reenterable allOkImpl initState
      Reachable.init).2 0 () () () rfl rfl rfl).1,
   ((isFinalized_never_set_and_finalize_reenterable allOkImpl initState
      Reachable.init).2 0 () () () rfl rfl rfl).2⟩

/-- C6: a `finalize` call on an index whose finalization flag is set
returns the `already finalized` error and leaves the state unchanged;
the check precedes any decoding attempt — the result is the same for
every configured implementation, whatever its decode does. -/
theorem finalize_already_finalized
    {T E A P R G : Type} (impl : LiabilityImpl T E A P R G)
    (i : Nat) (r : R) (pf : P) (s : LiabilityState)
    (h : s.isFinalized i = true) :
    finalize impl RawOrigin.None i r pf s = (.error "already finalized", s) := by
  unfold finalize
  simp [ensure_none, h]

theorem finalize_already_finalized_witness :
    finalize okImpl RawOrigin.None 1 [1] [] finalizedFlagState =
      (.error "already finalized", finalizedFlagState) :=
  finalize_already_finalized okImpl 1 [1] [] finalizedFlagState rfl

/-- C7: a `finalize` call on an index at which no agreement was stored —
the storage map yields the default empty byte sequence, which does not
decode as a valid Agreement — returns the decode error and leaves the
state unchanged. -/
theorem finalize_missing_index_decode_error
    (verify : SignedAgreement → ProofTarget (List Nat) → List Nat → Except String Unit)
    (on_start : SignedAgreement → Except String Unit)
    (on_finish : SignedAgreement → Bool → Except String Unit)
    (i : Nat) (r : List Nat) (pf : List Nat) (s : LiabilityState)
    (hempty : s.liabilityOf i = [])
    (hflag : s.isFinalized i = false) :
    finalize (signedImpl verify on_start on_finish) RawOrigin.None i r pf s =
      (.error "unable decode liability params", s) := by
  unfold finalize
  simp [ensure_none, hflag, hempty, signedImpl, decodeAgreement]

theorem finalize_missing_index_decode_error_witness :
    finalize okImpl RawOrigin.None 1 [1] [] initState =
      (.error "unable decode liability params", initState) :=
  finalize_missing_index_decode_error
    (fun _ _ _ => .ok ()) (fun _ => .ok ()) (fun _ _ => .ok ())
    1 [1] [] initState rfl rfl

/-- Two implementations that agree on decode, verify and report encoding,
and whose finish hooks agree at `true`, give identical `finalize`
behavior: the finish hook is only ever consulted at `true`. -/
theorem finalize_congr {T E A P R G : Type} (impl impl' : LiabilityImpl T E A P R G)
    (hdec : impl'.decode = impl.decode)
    (hver : impl'.verify = impl.verify)
    (hfin : ∀ g, impl'.on_finish g true = impl.on_finish g true)
    (henc : impl'.encodeReport = impl.encodeReport)
    (o : RawOrigin A) (i : Nat) (r : R) (pf : P) (s : LiabilityState) :
    finalize impl' o i r pf s = finalize impl o i r pf s := by
  unfold finalize
  rw [hdec, hver, henc]
  simp only [hfin]

/-- C5 counterexample: from genesis, one successful `create` and two
successful `finalize` calls on the same index each store a report, the
second overwriting the first — `ReportOf[1]` changes after it first held
a report. -/
theorem report_overwritten_by_repeated_finalize :
    (finalize okImpl RawOrigin.None 1 [1] [] exampleCreated).1 = .ok () ∧
    (finalize okImpl RawOrigin.None 1 [2] [] exampleFinalizedOnce).1 = .ok () ∧
    exampleFinalizedOnce.reportOf 1 = [1, 1] ∧
    (finalize okImpl RawOrigin.None 1 [2] [] exampleFinalizedOnce).2.reportOf 1 = [1, 2] ∧
    (finalize okImpl RawOrigin.None 1 [2] [] exampleFinalizedOnce).2.reportOf 1 ≠
      exampleFinalizedOnce.reportOf 1 :=
  ⟨rfl, rfl, rfl, rfl, by decide⟩

/-- C5 (amended): stored Agreements are never updated or deleted — in any
reachable state, an index that holds agreement bytes holds exactly the
same bytes after any further `create` or `finalize` call; stored Reports,
however, can be overwritten by repeated `finalize` on the same index,
since the finalization flag is never set. -/
theorem agreements_append_only
    {T E A P R G : Type} (impl : LiabilityImpl T E A P R G) (s : LiabilityState)
    (h : Reachable impl s) :
    (∀ (o : RawOrigin A) (t : T) (e : E) (pe : A) (ppf : P) (pr : A) (rpf : P) (i : Nat),
        s.liabilityOf i ≠ [] →
        (create impl o t e pe ppf pr rpf s).2.liabilityOf i = s.liabilityOf i) ∧
    (∀ (o : RawOrigin A) (i : Nat) (r : R) (pf : P),
        (finalize impl o i r pf s).2.liabilityOf = s.liabilityOf) := by
  refine ⟨?_, fun o i r pf => finalize_liabilityOf_eq impl o i r pf s⟩
  intro o t e pe ppf pr rpf i hne
  by_cases hi : i = s.latestIndex + 1
  · exact absurd (reachable_liabilityOf_empty_above impl s h i (by omega)) hne
  · exact create_liabilityOf_frame impl o t e pe ppf pr rpf s i hi

theorem agreements_append_only_witness :
    (create okImpl RawOrigin.None [4] 4 4 [] 4 [] exampleCreated).2.liabilityOf 1 =
      exampleCreated.liabilityOf 1 ∧
    (finalize okImpl RawOrigin.None 1 [1] [] exampleCreated).2.liabilityOf =
      exampleCreated.liabilityOf :=
  have hr : Reachable okImpl exampleCreated :=
    Reachable.step_create initState RawOrigin.None [9] 3 5 [] 6 [] Reachable.init
  ⟨(agreements_append_only okImpl exampleCreated hr).1
      RawOrigin.None [4] 4 4 [] 4 [] 1 (by decide),
   (agreements_append_only okImpl exampleCreated hr).2 RawOrigin.None 1 [1] []⟩

/-- C8: a failing economic start hook aborts `create` with the hook's
error and no state change; a failing finish hook aborts `finalize`
likewise; the finish hook is reached only after report-proof
verification succeeds (a verification failure aborts first, whatever the
hook would do), and the hook is only ever consulted with `success =
true`. -/
theorem economic_hook_failure_aborts :
    (∀ (T E A P R G : Type) (impl : LiabilityImpl T E A P R G)
        (t : T) (e : E) (pe : A) (ppf : P) (pr : A) (rpf : P)
        (s : LiabilityState) (msg : String),
        impl.verify (impl.new t e pe pr) ProofTarget.Promisee ppf = .ok () →
        impl.verify (impl.new t e pe pr) ProofTarget.Promisor rpf = .ok () →
        impl.on_start (impl.new t e pe pr) = .error msg →
        create impl RawOrigin.None t e pe ppf pr rpf s = (.error msg, s)) ∧
    (∀ (T E A P R G : Type) (impl : LiabilityImpl T E A P R G)
        (i : Nat) (r : R) (pf : P) (s : LiabilityState) (liab : G) (msg : String),
        s.isFinalized i = false →
        impl.decode (s.liabilityOf i) = .ok liab →
        impl.verify liab (ProofTarget.Report r) pf = .ok () →
        impl.on_finish liab true = .error msg →
        finalize impl RawOrigin.None i r pf s = (.error msg, s)) ∧
    (∀ (T E A P R G : Type) (impl : LiabilityImpl T E A P R G)
        (i : Nat) (r : R) (pf : P) (s : LiabilityState) (liab : G) (msg : String),
        s.isFinalized i = false →
        impl.decode (s.liabilityOf i) = .ok liab →
        impl.verify liab (ProofTarget.Report r) pf = .error msg →
        finalize impl RawOrigin.None i r pf s = (.error msg, s)) ∧
    (∀ (T E A P R G : Type) (impl : LiabilityImpl T E A P R G)
        (f : G → Bool → Except String Unit),
        (∀ g, f g true = impl.on_finish g true) →
        ∀ (o : RawOrigin A) (i : Nat) (r : R) (pf : P) (s : LiabilityState),
          finalize { impl with on_finish := f } o i r pf s =
            finalize impl o i r pf s) := by
  refine ⟨?_, ?_, ?_, ?_⟩
  · intro _ _ _ _ _ _ impl t e pe ppf pr rpf s msg h1 h2 h3
    unfold create
    simp [ensure_none, h1, h2, h3]
  · intro _ _ _ _ _ _ impl i r pf s liab msg hflag hdec hver hfin
    unfold finalize
    simp [ensure_none, hflag, hdec, hver, hfin]
  · intro _ _ _ _ _ _ impl i r pf s liab msg hflag hdec hver
    unfold finalize
    simp [ensure_none, hflag, hdec, hver]
  · intro _ _ _ _ _ _ impl f hf o i r pf s
    exact finalize_congr impl { impl with on_finish := f } rfl rfl hf rfl o i r pf s

theorem economic_hook_failure_aborts_witness :
    create failHooksImpl RawOrigin.None [9] 3 5 [] 6 [] initState =
      (.error "start declined", initState) ∧
    finalize failHooksImpl RawOrigin.None 1 [1] [] exampleCreated =
      (.error "finish declined", exampleCreated) ∧
    finalize failReportImpl RawOrigin.None 1 [1] [] exampleCreated =
      (.error "bad report proof", exampleCreated) ∧
    finalize { okImpl with on_finish := fun _ b => if b then .ok () else .error "declined" }
        RawOrigin.None 1 [1] [] exampleCreated =
      finalize okImpl RawOrigin.None 1 [1] [] exampleCreated :=
  ⟨economic_hook_failure_aborts.1 _ _ _ _ _ _ failHooksImpl
      [9] 3 5 [] 6 [] initState "start declined" rfl rfl rfl,
   economic_hook_failure_aborts.2.1 _ _ _ _ _ _ failHooksImpl
      1 [1] [] exampleCreated { technical := [9], economic := 3, promisee := 5, promisor := 6 }
      "finish declined" rfl rfl rfl rfl,
   economic_hook_failure_aborts.2.2.1 _ _ _ _ _ _ failReportImpl
      1 [1] [] exampleCreated { technical := [9], economic := 3, promisee := 5, promisor := 6 }
      "bad report proof" rfl rfl rfl,
   economic_hook_failure_aborts.2.2.2 _ _ _ _ _ _ okImpl
      (fun _ b => if b then .ok () else .error "declined") (fun _ => rfl)
      RawOrigin.None 1 [1] [] exampleCreated⟩

/-- C10: frame conditions. `create` neither reads nor modifies `ReportOf`
or `IsFinalized` (its outcome on a state with those fields replaced is
the same outcome with the same fields replaced), and modifies
`LiabilityOf` at most at the single newly assigned index
`LatestIndex + 1`; `finalize` never modifies `LatestIndex`, `LiabilityOf`
or `IsFinalized`, and modifies `ReportOf` at most at the index it was
called with — whether the calls succeed or fail. -/
theorem entry_point_frame_conditions :
    (∀ (T E A P R G : Type) (impl : LiabilityImpl T E A P R G)
        (o : RawOrigin A) (t : T) (e : E) (pe : A) (ppf : P) (pr : A) (rpf : P)
        (s : LiabilityState) (ro : Nat → List Nat) (fi : Nat → Bool),
        create impl o t e pe ppf pr rpf { s with reportOf := ro, isFinalized := fi } =
          ((create impl o t e pe ppf pr rpf s).1,
            { (create impl o t e pe ppf pr rpf s).2 with reportOf := ro, isFinalized := fi })) ∧
    (∀ (T E A P R G : Type) (impl : LiabilityImpl T E A P R G)
        (o : RawOrigin A) (t : T) (e : E) (pe : A) (ppf : P) (pr : A) (rpf : P)
        (s : LiabilityState) (j : Nat), j ≠ s.latestIndex + 1 →
        (create impl o t e pe ppf pr rpf s).2.liabilityOf j = s.liabilityOf j) ∧
    (∀ (T E A P R G : Type) (impl : LiabilityImpl T E A P R G)
        (o : RawOrigin A) (i : Nat) (r : R) (pf : P) (s : LiabilityState),
        (finalize impl o i r pf s).2.latestIndex = s.latestIndex ∧
        (finalize impl o i r pf s).2.liabilityOf = s.liabilityOf ∧
        (finalize impl o i r pf s).2.isFinalized = s.isFinalized ∧
        ∀ j, j ≠ i → (finalize impl o i r pf s).2.reportOf j = s.reportOf j) := by
  refine ⟨?_, ?_, ?_⟩
  · intro _ _ _ _ _ _ impl o t e pe ppf pr rpf s ro fi
    unfold create
    repeat first | rfl | split
  · intro _ _ _ _ _ _ impl o t e pe ppf pr rpf s j hj
    exact create_liabilityOf_frame impl o t e pe ppf pr rpf s j hj
  · intro _ _ _ _ _ _ impl o i r pf s
    exact ⟨finalize_latestIndex_eq impl o i r pf s,
      finalize_liabilityOf_eq impl o i r pf s,
      finalize_isFinalized_eq impl o i r pf s,
      fun j hj => finalize_reportOf_frame impl o i r pf s j hj⟩

theorem entry_point_frame_conditions_witness :
    (create okImpl RawOrigin.None [9] 3 5 [] 6 []
        { initState with reportOf := fun _ => [7], isFinalized := fun _ => false } =
      ((create okImpl RawOrigin.None [9] 3 5 [] 6 [] initState).1,
        { (create okImpl RawOrigin.None [9] 3 5 [] 6 [] initState).2 with
          reportOf := fun _ => [7], isFinalized := fun _ => false })) ∧
    (create okImpl RawOrigin.None [9] 3 5 [] 6 [] initState).2.liabilityOf 0 =
      initState.liabilityOf 0 ∧
    (finalize okImpl RawOrigin.None 1 [1] [] exampleCreated).2.reportOf 0 =
      exampleCreated.reportOf 0 :=
  ⟨entry_point_frame_conditions.1 _ _ _ _ _ _ okImpl RawOrigin.None [9] 3 5 [] 6 []
      initState (fun _ => [7]) (fun _ => false),
   entry_point_frame_conditions.2.1 _ _ _ _ _ _ okImpl RawOrigin.None [9] 3 5 [] 6 []
      initState 0 (by decide),
   (entry_point_frame_conditions.2.2 _ _ _ _ _ _ okImpl RawOrigin.None 1 [1] []
      exampleCreated).2.2.2 0 (by decide)⟩
